import Mathlib

/-!
Verification of the chat-transformer repository core:
content normalizer, tree linearizer, conversion pipeline and aggregate
index builder, shallowly embedded from the Go sources
(`internal/parser/chatgpt_parser.go`, the converter file with
`ConvertChatGPTToStandard`, and `internal/indexer/indexer.go`).

Go maps are embedded as association lists (lookup takes the first
binding); Go's nondeterministic map iteration order is represented by the
list order.  Go `time.Time` values that the code only ever builds with
`time.Unix(int64(t), 0)` and compares with `After` (strict >) are embedded
as `Int` seconds.  A Go panic (out-of-range index / slice) is embedded as
`Option.none`.
-/

/-- Universe of decoded JSON values, the type behind Go's `interface{}`
on the untyped `parts` field and on metadata maps. -/
inductive JValue where
  | null
  | bool (b : Bool)
  | num (n : Int)
  | str (s : String)
  | arr (elems : List JValue)
  | obj (fields : List (String × JValue))

mutual

/-- Embedding of Go's `fmt.Sprintf("%v", v)` default rendering of a
decoded JSON value.  The exact bytes are irrelevant to every claim (the
spec only requires a deterministic marker-bearing placeholder); Go's
sorted-key map printing is abstracted to field order. -/
def render : JValue → String
  | .null => "<nil>"
  | .bool b => if b then "true" else "false"
  | .num n => toString n
  | .str s => s
  | .arr l => "[" ++ renderList l ++ "]"
  | .obj f => "map[" ++ renderFields f ++ "]"

def renderList : List JValue → String
  | [] => ""
  | [v] => render v
  | v :: v' :: vs => render v ++ " " ++ renderList (v' :: vs)

def renderFields : List (String × JValue) → String
  | [] => ""
  | [(k, v)] => k ++ ":" ++ render v
  | (k, v) :: kv :: kvs => k ++ ":" ++ render v ++ " " ++ renderFields (kv :: kvs)

end

/-- models.ChatGPTAuthor (the metadata map is dropped: never read by the core). -/
structure ChatGPTAuthor where
  role : String
  name : String

/-- models.ChatGPTContent: parts already normalized to strings. -/
structure ChatGPTContent where
  contentType : String
  parts : List String

/-- models.ChatGPTMessage. -/
structure ChatGPTMessage where
  id : String
  author : ChatGPTAuthor
  createTime : Int
  updateTime : Int
  content : ChatGPTContent
  status : String
  metadata : List (String × JValue)

/-- models.ChatGPTNode. -/
structure ChatGPTNode where
  id : String
  message : Option ChatGPTMessage
  parent : String
  children : List String

/-- models.ChatGPTConversation; `mapping` is the Go map embedded as an
association list. -/
structure ChatGPTConversation where
  id : String
  title : String
  createTime : Int
  updateTime : Int
  mapping : List (String × ChatGPTNode)
  currentNode : String
  conversationId : String

/-- models.ChatGPTContentRaw: `Parts interface{}`. -/
structure ChatGPTContentRaw where
  contentType : String
  parts : JValue

/-- models.ChatGPTMessageRaw. -/
structure ChatGPTMessageRaw where
  id : String
  author : ChatGPTAuthor
  createTime : Int
  updateTime : Int
  content : ChatGPTContentRaw
  status : String
  metadata : List (String × JValue)

/-- models.ChatGPTNodeRaw. -/
structure ChatGPTNodeRaw where
  id : String
  message : Option ChatGPTMessageRaw
  parent : String
  children : List String

/-- models.ChatGPTConversationRaw. -/
structure ChatGPTConversationRaw where
  id : String
  title : String
  createTime : Int
  updateTime : Int
  mapping : List (String × ChatGPTNodeRaw)
  currentNode : String
  conversationId : String

/-- Per-element body of the `[]interface{}` loop in `convertRawMessage`
(chatgpt_parser.go:298-315): strings pass through, objects are probed for
a string-typed "text" field with an `[Object: ...]` placeholder fallback,
everything else goes through `%v`. -/
def partToText : JValue → String
  | .str s => s
  | .obj fields =>
    match fields.find? (fun kv => kv.1 = "text") with
    | some (_, .str t) => t
    | _ => "[Object: " ++ render (.obj fields) ++ "]"
  | v => render v

/-- The `switch v := raw.Content.Parts.(type)` of `convertRawMessage`
(chatgpt_parser.go:295-325).  Go's separate `[]interface{}` and
`[]string` cases collapse onto `.arr` (a decoded JSON array of strings is
a `[]interface{}` of strings, which the first case maps through
element-wise, leaving the list unchanged); the `default` case is `%v`. -/
def convertParts : JValue → List String
  | .arr v => v.foldl (fun acc part => acc ++ [partToText part]) []
  | .str s => [s]
  | v => [render v]

/-- chatgpt_parser.go:279-329 `convertRawMessage`.  The Go function's
`error` result is always nil, so the embedding is total. -/
def convertRawMessage (raw : ChatGPTMessageRaw) : ChatGPTMessage :=
  { id := raw.id
    author := raw.author
    createTime := raw.createTime
    updateTime := raw.updateTime
    content := { contentType := raw.content.contentType
                 parts := convertParts raw.content.parts }
    status := raw.status
    metadata := raw.metadata }

/-- chatgpt_parser.go:232-276 `convertRawConversation`.  The empty-title
branch slices `raw.ID[:8]`, which panics when the identifier is shorter
than 8 bytes; the panic is embedded as `none`.  The message-conversion
error branch at lines 261-266 is dead code (`convertRawMessage` never
returns an error), so every raw message is converted and attached. -/
def convertRawConversation (raw : ChatGPTConversationRaw) : Option ChatGPTConversation :=
  match (if raw.title = "" then
           (if 8 ≤ raw.id.length then some ("Conversation-" ++ raw.id.take 8) else none)
         else some raw.title) with
  | none => none
  | some title =>
    some { id := raw.id
           title := title
           createTime := raw.createTime
           updateTime := raw.updateTime
           mapping := raw.mapping.map (fun kn =>
             (kn.1, { id := kn.2.id
                      message := kn.2.message.map convertRawMessage
                      parent := kn.2.parent
                      children := kn.2.children }))
           currentNode := raw.currentNode
           conversationId := raw.conversationId }

/-- models.Message (the metadata map is carried through untouched). -/
structure Message where
  id : String
  author : String
  content : String
  timestamp : Int
  metadata : List (String × JValue)

/-- models.ConversationMetadata. -/
structure ConversationMetadata where
  id : String
  title : String
  platform : String
  project : String
  createdDate : Int
  lastModified : Int
  messageCount : Nat
  participants : List String
  topics : List String
  hasCode : Bool
  hasMedia : Bool
  filePath : String

/-- models.Conversation. -/
structure Conversation where
  metadata : ConversationMetadata
  messages : List Message

/-- Drop leading whitespace characters. -/
def dropSpace : List Char → List Char
  | [] => []
  | c :: cs => if c.isWhitespace then dropSpace cs else c :: cs

/-- Embedding of Go's `strings.TrimSpace`: whitespace removed from both
ends. -/
def strTrim (s : String) : String :=
  String.mk (dropSpace (dropSpace s.data.reverse).reverse)

/-- Embedding of Go's `strings.ToLower` (ASCII letters suffice for every
pattern the source compares against). -/
def strToLower (s : String) : String :=
  String.mk (s.data.map Char.toLower)

/-- Does `pat` start `l`? -/
def charsLeading : List Char → List Char → Bool
  | [], _ => true
  | _ :: _, [] => false
  | a :: as, b :: bs => a = b && charsLeading as bs

/-- Does `pat` occur somewhere in `l`? -/
def charsContain (pat : List Char) : List Char → Bool
  | [] => pat.isEmpty
  | c :: cs => charsLeading pat (c :: cs) || charsContain pat cs

/-- Embedding of Go's `strings.Contains`: substring occurrence. -/
def strContains (s pat : String) : Bool :=
  charsContain pat.data s.data

/-- Author canonicalization from `ConvertChatGPTToStandard`
(converter lines 587-592). -/
def canonicalAuthor (role : String) : String :=
  if role = "assistant" then "ChatGPT"
  else if role = "user" then "User"
  else role

/-- The `strings.Builder` loop of the extractor (converter lines
570-576): each part followed by one space, then `TrimSpace`. -/
def joinedParts (parts : List String) : String :=
  strTrim (String.join (parts.map (fun p => p ++ " ")))

/-- Converter lines 576-581: empty content after trimming becomes the
sentinel. -/
def messageText (parts : List String) : String :=
  let contentText := joinedParts parts
  if contentText = "" then "[Empty message]" else contentText

/-- The models.Message built at converter lines 595-601 for one node
message. -/
def mkMessage (msg : ChatGPTMessage) : Message :=
  { id := msg.id
    author := canonicalAuthor msg.author.role
    content := messageText msg.content.parts
    timestamp := msg.createTime
    metadata := msg.metadata }

/-- The mutable state threaded through `extractMessages`: the closure
captures `visitedNodes`, `messages`, `participants` and `hasCode`
(`hasMedia` is never written by the ChatGPT converter). -/
structure ExtractState where
  visited : List String
  messages : List Message
  participants : List String
  hasCode : Bool

def initialState : ExtractState :=
  { visited := [], messages := [], participants := [], hasCode := false }

/-- Association-list lookup, the embedding of `chatgpt.Mapping[nodeID]`. -/
def alookup (mp : List (String × ChatGPTNode)) (k : String) : Option ChatGPTNode :=
  match mp with
  | [] => none
  | kn :: rest => if kn.1 = k then some kn.2 else alookup rest k

/-- Message bookkeeping done once a node with a message is reached
(converter lines 566-601): content, hasCode flag, canonical author,
participants set (embedded in first-seen order), message append. -/
def emitMessage (st : ExtractState) (msg : ChatGPTMessage) : ExtractState :=
  let contentText := messageText msg.content.parts
  let author := canonicalAuthor msg.author.role
  { st with
    hasCode := st.hasCode || strContains contentText "```" || strContains contentText "`"
    participants := if author ∈ st.participants then st.participants
                    else st.participants ++ [author]
    messages := st.messages ++ [mkMessage msg] }

/-- The recursive closure `extractMessages` (converter lines 545-602),
run left-to-right over a list of start nodes.  For each node: skip empty
ids and already-visited nodes, mark visited, look the node up, recurse
into all children first, then process the node's own message.

Go's recursion is unbounded; here `fuel` is a step budget (one unit per
node taken off the worklist), and `visitList_isSome` proves the fuel
chosen by `extractPhase` is never exhausted, so the embedding computes
exactly the unbounded traversal.  `none` marks the (unreachable)
fuel-exhausted case. -/
def visitList (mp : List (String × ChatGPTNode)) :
    Nat → ExtractState → List String → Option ExtractState
  | _, st, [] => some st
  | 0, _, _ :: _ => none
  | fuel + 1, st, nodeID :: rest =>
    if nodeID = "" ∨ nodeID ∈ st.visited then
      visitList mp fuel st rest
    else
      let st1 := { st with visited := nodeID :: st.visited }
      match alookup mp nodeID with
      | none => visitList mp fuel st1 rest
      | some node =>
        match visitList mp fuel st1 node.children with
        | none => none
        | some st2 =>
          match node.message with
          | none => visitList mp fuel st2 rest
          | some msg => visitList mp fuel (emitMessage st2 msg) rest

/-- Total descent weight of the not-yet-visited mapping entries: each
contributes one frame plus one frame per child id.  Bounds the recursion
depth of `visitList`. -/
def pending (mp : List (String × ChatGPTNode)) (visited : List String) : Nat :=
  match mp with
  | [] => 0
  | kn :: rest =>
    (if kn.1 ∈ visited then 0 else 1 + kn.2.children.length) + pending rest visited

/-- Depth budget used by `extractPhase`; `visitList_isSome` shows it is
sufficient for every call the driver makes. -/
def extractFuel (conv : ChatGPTConversation) : Nat :=
  conv.mapping.length + pending conv.mapping [] + 1

/-- The root candidates, in mapping order: nodes whose parent id is empty
(converter lines 604-611). -/
def rootIDs (conv : ChatGPTConversation) : List String :=
  (conv.mapping.filter (fun kn => kn.2.parent = "")).map Prod.fst

/-- The fallback scan at converter lines 621-626: first mapping entry
that carries a message and is unvisited. -/
def findMessageNode (mp : List (String × ChatGPTNode)) (visited : List String) :
    Option (String × ChatGPTNode) :=
  match mp with
  | [] => none
  | kn :: rest =>
    if kn.2.message.isSome ∧ kn.1 ∉ visited then some kn
    else findMessageNode rest visited

/-- The traversal driver of `ConvertChatGPTToStandard` (converter lines
604-628): traverse from every root candidate; if there were no root
candidates, fall back to the current-node pointer when non-empty,
otherwise to the first message-carrying unvisited node. -/
def extractPhase (conv : ChatGPTConversation) : Option ExtractState :=
  match visitList conv.mapping (extractFuel conv) initialState (rootIDs conv) with
  | none => none
  | some st =>
    if (rootIDs conv).length = 0 then
      if conv.currentNode ≠ "" then
        visitList conv.mapping (extractFuel conv) st [conv.currentNode]
      else
        match findMessageNode conv.mapping st.visited with
        | some kn => visitList conv.mapping (extractFuel conv) st [kn.1]
        | none => some st
    else some st

/-- Keyword list of `extractTopics` (converter lines 675-679). -/
def programmingKeywords : List String :=
  ["python", "javascript", "go", "golang", "react", "node", "api",
   "database", "sql", "web", "frontend", "backend", "code", "programming",
   "debug", "error", "function", "class", "algorithm", "data", "structure"]

/-- Converter lines 670-698 `extractTopics`. -/
def extractTopics (title : String) : List String :=
  let titleLower := strToLower title
  let topics := programmingKeywords.foldl
    (fun acc kw => if strContains titleLower kw then acc ++ [kw] else acc) []
  if topics.length = 0 then
    if strContains titleLower "help" || strContains titleLower "question" then ["help"]
    else ["general"]
  else topics

/-- Inner loop of the quadratic exchange sort (converter lines 631-637):
scan the suffix, swapping the pivot slot with any strictly-smaller
element; returns the settled minimum and the rearranged suffix. -/
def exchPass (key : α → Int) (x : α) : List α → α × List α
  | [] => (x, [])
  | y :: ys =>
    if key y < key x then
      ((exchPass key y ys).1, x :: (exchPass key y ys).2)
    else
      ((exchPass key x ys).1, y :: (exchPass key x ys).2)

/-- Outer loop of the exchange sort; the fuel equals the list length
(`exchPass` preserves suffix length, so it is exactly enough). -/
def exchSortFuel (key : α → Int) : Nat → List α → List α
  | _, [] => []
  | 0, l => l
  | fuel + 1, x :: xs =>
    (exchPass key x xs).1 :: exchSortFuel key fuel (exchPass key x xs).2

/-- The in-place quadratic sort at converter lines 631-637 and
indexer.go:132-138: `for i; for j > i: if a[i].key.After(a[j].key) swap`. -/
def exchSort (key : α → Int) (l : List α) : List α :=
  exchSortFuel key l.length l

/-- Message sort of `ConvertChatGPTToStandard` (ascending by timestamp,
`After` is strict). -/
def sortMessages (l : List Message) : List Message :=
  exchSort (fun m => m.timestamp) l

/-- `ConvertChatGPTToStandard` (converter lines 517-667).  The
`extractPhase ... |>.getD initialState` default is never taken
(`extractPhase_isSome`); participants keep first-seen order where Go's
map iteration is unspecified. -/
def ConvertChatGPTToStandard (conv : ChatGPTConversation) : Conversation :=
  let st := (extractPhase conv).getD initialState
  let messages := sortMessages st.messages
  { metadata := { id := conv.id
                  title := conv.title
                  platform := "chatgpt"
                  project := ""
                  createdDate := conv.createTime
                  lastModified := conv.updateTime
                  messageCount := messages.length
                  participants := st.participants
                  topics := extractTopics conv.title
                  hasCode := st.hasCode
                  hasMedia := false
                  filePath := "" }
    messages := messages }

/-- One iteration of the worker loop `conversationWorker`
(chatgpt_parser.go:192-217): convert the raw record, then run the
per-item callback; exactly one result is pushed per job.  The outer
`none` marks a Go panic escaping `convertRawConversation` (which crashes
the whole process: there is no recover); `some r` is a completed job with
`r = none` for success and `r = some msg` for a recorded per-job error.
The `convErr` branch of the Go worker is dead code, since
`convertRawConversation`'s error result is always nil — its only failure
mode is the panic. -/
def workerStep (callback : ChatGPTConversation → Option String)
    (raw : ChatGPTConversationRaw) : Option (Option String) :=
  match convertRawConversation raw with
  | none => none
  | some conv =>
    match callback conv with
    | some e => some (some ("callback failed for conversation " ++ conv.id ++ ": " ++ e))
    | none => some none

/-- The jobs of one batch, processed each exactly once by the worker
pool.  Scheduling across the 25 workers only permutes which worker runs
which job; each per-job outcome depends on that job alone, so the pool is
embedded as the in-order list of per-job results (`resultChan` contents).
A panic in any worker goroutine crashes the process (`none`). -/
def runJobs (callback : ChatGPTConversation → Option String) :
    List ChatGPTConversationRaw → Option (List (Option String))
  | [] => some []
  | raw :: rest =>
    match workerStep callback raw with
    | none => none
    | some r =>
      match runJobs callback rest with
      | none => none
      | some rs => some (r :: rs)

/-- chatgpt_parser.go:116-189 `processConversationsParallel`: distributes
the batch over the pool, drains the result channel counting successes and
failures, and returns a nil error regardless of per-job failures
(`return nil` at line 188).  `some (successCount, errorCount)` is the
normal completion, `none` a process-crashing panic. -/
def processConversationsParallel (conversations : List ChatGPTConversationRaw)
    (callback : ChatGPTConversation → Option String) : Option (Nat × Nat) :=
  if conversations.length = 0 then some (0, 0)
  else
    match runJobs callback conversations with
    | none => none
    | some rs => some (rs.countP (fun r => r.isNone), rs.countP (fun r => r.isSome))

/-- indexer.go:14-19 `Indexer`: master listing plus topic → conversation
ids map (embedded as an association list; the mutex serializes access and
has no observable effect on the recorded state). -/
structure Indexer where
  conversations : List ConversationMetadata
  topics : List (String × List String)

/-- indexer.go:22-28 `New`. -/
def Indexer.new : Indexer :=
  { conversations := [], topics := [] }

/-- Bucket lookup in the embedded topic map (Go `idx.topics[topic]`). -/
def topicsLookup (topics : List (String × List String)) (topic : String) :
    Option (List String) :=
  match topics with
  | [] => none
  | kv :: rest => if kv.1 = topic then some kv.2 else topicsLookup rest topic

/-- The topic-bucket update of `AddConversation` (indexer.go:38-43):
create the bucket if absent, then append the conversation id. -/
def addTopic (topics : List (String × List String)) (topic id : String) :
    List (String × List String) :=
  if (topicsLookup topics topic).isSome then
    topics.map (fun kv => if kv.1 = topic then (kv.1, kv.2 ++ [id]) else kv)
  else topics ++ [(topic, [id])]

/-- indexer.go:30-44 `AddConversation`. -/
def Indexer.addConversation (idx : Indexer) (metadata : ConversationMetadata) : Indexer :=
  { conversations := idx.conversations ++ [metadata]
    topics := metadata.topics.foldl (fun ts t => addTopic ts t metadata.id) idx.topics }

/-- indexer.go:109-120 `generateTopicIndex` emits the accumulated topic
map as-is (the `LastUpdated` wall-clock field is not modeled). -/
def generateTopicIndex (idx : Indexer) : List (String × List String) :=
  idx.topics

/-- The timeline value built by `generateTimeline` (indexer.go:140-148). -/
structure Timeline where
  conversations : List ConversationMetadata
  totalCount : Nat
  earliest : Int
  latest : Int

/-- indexer.go:123-151 `generateTimeline`: sort the master listing by
creation date with the quadratic exchange sort, then read
`sorted[0].CreatedDate` and `sorted[len(sorted)-1].CreatedDate`
unconditionally.  On an empty listing those indexes are out of range — a
Go panic, embedded as `none`. -/
def generateTimeline (conversations : List ConversationMetadata) : Option Timeline :=
  let sorted := exchSort (fun md => md.createdDate) conversations
  match sorted.head?, sorted.getLast? with
  | some first, some last =>
    some { conversations := sorted
           totalCount := sorted.length
           earliest := first.createdDate
           latest := last.createdDate }
  | _, _ => none

theorem exchPass_length (key : α → Int) (x : α) (l : List α) :
    ((exchPass key x l).2).length = l.length := by
  induction l generalizing x with
  | nil => rfl
  | cons y ys ih =>
    simp only [exchPass]
    split
    · simpa using ih y
    · simpa using ih x

theorem exchPass_min (key : α → Int) (x : α) (l : List α) :
    key (exchPass key x l).1 ≤ key x ∧
      ∀ z ∈ (exchPass key x l).2, key (exchPass key x l).1 ≤ key z := by
  induction l generalizing x with
  | nil => exact ⟨le_refl _, by simp [exchPass]⟩
  | cons y ys ih =>
    simp only [exchPass]
    split
    · next hlt =>
      refine ⟨le_trans (ih y).1 (le_of_lt hlt), ?_⟩
      intro z hz
      rcases List.mem_cons.mp hz with hz | hz
      · subst hz; exact le_trans (ih y).1 (le_of_lt hlt)
      · exact (ih y).2 z hz
    · next hge =>
      refine ⟨(ih x).1, ?_⟩
      intro z hz
      rcases List.mem_cons.mp hz with hz | hz
      · subst hz; exact le_trans (ih x).1 (le_of_not_lt hge)
      · exact (ih x).2 z hz

theorem exchPass_perm (key : α → Int) (x : α) (l : List α) :
    List.Perm ((exchPass key x l).1 :: (exchPass key x l).2) (x :: l) := by
  induction l generalizing x with
  | nil => simp [exchPass]
  | cons y ys ih =>
    simp only [exchPass]
    split
    · exact ((List.Perm.swap _ _ _).trans ((ih y).cons x))
    · exact ((List.Perm.swap _ _ _).trans (((ih x).cons y).trans (List.Perm.swap _ _ _)))

theorem exchSortFuel_perm (key : α → Int) :
    ∀ (fuel : Nat) (l : List α), l.length ≤ fuel → List.Perm (exchSortFuel key fuel l) l
  | _, [], _ => by simp [exchSortFuel]
  | 0, x :: xs, h => by simp at h
  | fuel + 1, x :: xs, h => by
    have hlen : ((exchPass key x xs).2).length ≤ fuel := by
      rw [exchPass_length]
      simpa using h
    show List.Perm ((exchPass key x xs).1 :: exchSortFuel key fuel (exchPass key x xs).2) (x :: xs)
    exact (((exchSortFuel_perm key fuel _ hlen).cons _).trans (exchPass_perm key x xs))

theorem exchSortFuel_sorted (key : α → Int) :
    ∀ (fuel : Nat) (l : List α), l.length ≤ fuel →
      List.Sorted (fun a b => key a ≤ key b) (exchSortFuel key fuel l)
  | _, [], _ => by simp [exchSortFuel]
  | 0, x :: xs, h => by simp at h
  | fuel + 1, x :: xs, h => by
    have hlen : ((exchPass key x xs).2).length ≤ fuel := by
      rw [exchPass_length]
      simpa using h
    show List.Sorted _ ((exchPass key x xs).1 :: exchSortFuel key fuel (exchPass key x xs).2)
    refine List.sorted_cons.mpr ⟨?_, exchSortFuel_sorted key fuel _ hlen⟩
    intro b hb
    have hbmem : b ∈ (exchPass key x xs).2 :=
      (exchSortFuel_perm key fuel _ hlen).mem_iff.mp hb
    exact (exchPass_min key x xs).2 b hbmem

theorem exchSort_sorted (key : α → Int) (l : List α) :
    List.Sorted (fun a b => key a ≤ key b) (exchSort key l) :=
  exchSortFuel_sorted key l.length l (le_refl _)

theorem exchSort_perm (key : α → Int) (l : List α) : List.Perm (exchSort key l) l :=
  exchSortFuel_perm key l.length l (le_refl _)

theorem emitMessage_visited (st : ExtractState) (msg : ChatGPTMessage) :
    (emitMessage st msg).visited = st.visited := rfl

theorem visitList_visited_mono (mp : List (String × ChatGPTNode)) :
    ∀ (fuel : Nat) (st : ExtractState) (l : List String) (st' : ExtractState),
      visitList mp fuel st l = some st' → ∀ x ∈ st.visited, x ∈ st'.visited
  | fuel, st, [], st', h => by
    simp only [visitList, Option.some.injEq] at h
    subst h
    exact fun x hx => hx
  | 0, st, n :: rest, st', h => by simp [visitList] at h
  | fuel + 1, st, n :: rest, st', h => by
    simp only [visitList] at h
    split at h
    · exact visitList_visited_mono mp fuel st rest st' h
    · next hskip =>
      split at h
      · next hlook =>
        intro x hx
        exact visitList_visited_mono mp fuel _ rest st' h x (List.mem_cons_of_mem _ hx)
      · next node hlook =>
        split at h
        · exact absurd h (by simp)
        · next st2 hchild =>
          split at h
          · intro x hx
            have hx1 : x ∈ st2.visited :=
              visitList_visited_mono mp fuel _ node.children st2 hchild x
                (List.mem_cons_of_mem _ hx)
            exact visitList_visited_mono mp fuel st2 rest st' h x hx1
          · next msg =>
            intro x hx
            have hx1 : x ∈ st2.visited :=
              visitList_visited_mono mp fuel _ node.children st2 hchild x
                (List.mem_cons_of_mem _ hx)
            exact visitList_visited_mono mp fuel _ rest st' h x hx1

theorem pending_mono (mp : List (String × ChatGPTNode)) (v v' : List String)
    (hsub : ∀ x ∈ v, x ∈ v') : pending mp v' ≤ pending mp v := by
  induction mp with
  | nil => simp [pending]
  | cons kn rest ih =>
    simp only [pending]
    have hhead : (if kn.1 ∈ v' then 0 else 1 + kn.2.children.length)
        ≤ (if kn.1 ∈ v then 0 else 1 + kn.2.children.length) := by
      by_cases hv : kn.1 ∈ v
      · simp [hv, hsub kn.1 hv]
      · simp [hv]
        split <;> omega
    omega

theorem alookup_mem (mp : List (String × ChatGPTNode)) (k : String) (node : ChatGPTNode)
    (h : alookup mp k = some node) : k ∈ mp.map Prod.fst := by
  induction mp with
  | nil => simp [alookup] at h
  | cons kn rest ih =>
    simp only [alookup] at h
    by_cases hk : kn.1 = k
    · simp [hk]
    · rw [if_neg hk] at h
      simpa using Or.inr (ih h)

theorem pending_drop (mp : List (String × ChatGPTNode)) (n : String) (node : ChatGPTNode)
    (visited : List String) (hfind : alookup mp n = some node) (hnv : n ∉ visited) :
    pending mp (n :: visited) + (1 + node.children.length) ≤ pending mp visited := by
  induction mp with
  | nil => simp [alookup] at hfind
  | cons kn rest ih =>
    simp only [alookup] at hfind
    simp only [pending]
    by_cases hk : kn.1 = n
    · rw [if_pos hk] at hfind
      have hnode : kn.2 = node := Option.some.inj hfind
      have htail : pending rest (n :: visited) ≤ pending rest visited :=
        pending_mono rest visited (n :: visited) (fun x hx => List.mem_cons_of_mem _ hx)
      have hheadold : (if kn.1 ∈ visited then 0 else 1 + kn.2.children.length)
          = 1 + node.children.length := by
        rw [if_neg (by rw [hk]; exact hnv), hnode]
      have hheadnew : (if kn.1 ∈ n :: visited then 0 else 1 + kn.2.children.length) = 0 := by
        rw [if_pos (by rw [hk]; exact List.mem_cons_self _ _)]
      omega
    · rw [if_neg hk] at hfind
      have := ih hfind
      have hhead : (if kn.1 ∈ n :: visited then 0 else 1 + kn.2.children.length)
          = (if kn.1 ∈ visited then 0 else 1 + kn.2.children.length) := by
        by_cases hv : kn.1 ∈ visited
        · rw [if_pos hv, if_pos (List.mem_cons_of_mem _ hv)]
        · rw [if_neg hv, if_neg (fun hmem => by
            rcases List.mem_cons.mp hmem with h1 | h1
            · exact hk h1
            · exact hv h1)]
      omega

theorem visitList_isSome (mp : List (String × ChatGPTNode)) :
    ∀ (fuel : Nat) (st : ExtractState) (l : List String),
      l.length + pending mp st.visited ≤ fuel →
      (visitList mp fuel st l).isSome = true
  | fuel, st, [], _ => by simp [visitList]
  | 0, st, n :: rest, hb => by
    exfalso
    simp only [List.length_cons] at hb
    omega
  | fuel + 1, st, n :: rest, hb => by
    simp only [List.length_cons] at hb
    simp only [visitList]
    split
    · exact visitList_isSome mp fuel st rest (by omega)
    · next hskip =>
      have hnv : n ∉ st.visited := fun hmem => hskip (Or.inr hmem)
      split
      · next hlook =>
        have hp1 : pending mp (n :: st.visited) ≤ pending mp st.visited :=
          pending_mono mp st.visited (n :: st.visited) (fun x hx => List.mem_cons_of_mem _ hx)
        exact visitList_isSome mp fuel _ rest (by simp only []; omega)
      · next node hlook =>
        have hdrop := pending_drop mp n node st.visited hlook hnv
        have hchild : (visitList mp fuel { st with visited := n :: st.visited }
            node.children).isSome = true :=
          visitList_isSome mp fuel _ node.children (by simp only []; omega)
        obtain ⟨st2, hst2⟩ := Option.isSome_iff_exists.mp hchild
        have hmono := visitList_visited_mono mp fuel _ node.children st2 hst2
        have hp2 : pending mp st2.visited ≤ pending mp (n :: st.visited) :=
          pending_mono mp (n :: st.visited) st2.visited (fun x hx => hmono x hx)
        cases hmsg : node.message with
        | none =>
          rw [hst2]
          exact visitList_isSome mp fuel st2 rest (by omega)
        | some msg =>
          rw [hst2]
          exact visitList_isSome mp fuel (emitMessage st2 msg) rest
            (by rw [emitMessage_visited]; omega)

/-- The message a given node contributes if and when the traversal
processes it. -/
def emitOf (mp : List (String × ChatGPTNode)) (i : String) : Option Message :=
  (alookup mp i).bind (fun node => node.message.map mkMessage)

theorem emitMessage_messages (st : ExtractState) (msg : ChatGPTMessage) :
    (emitMessage st msg).messages = st.messages ++ [mkMessage msg] := rfl

theorem filterMap_singleton (f : α → Option β) (a : α) :
    List.filterMap f [a] = (f a).toList := by
  cases h : f a <;> simp [List.filterMap_cons, h]

theorem extends_step (mp : List (String × ChatGPTNode)) (st st2 st' : ExtractState)
    (n : String) (node : ChatGPTNode)
    (hnv : n ∉ st.visited) (hlook : alookup mp n = some node)
    (Nc Ec Nr Er : List String)
    (hvc : st2.visited = Nc ++ (n :: st.visited))
    (hndc : Nc.Nodup) (hfreshc : ∀ i ∈ Nc, i ∉ n :: st.visited)
    (hndec : Ec.Nodup) (hsubc : ∀ i ∈ Ec, i ∈ Nc)
    (hmsgc : st2.messages = st.messages ++ Ec.filterMap (emitOf mp))
    (hvr : st'.visited = Nr ++ st2.visited)
    (hndr : Nr.Nodup) (hfreshr : ∀ i ∈ Nr, i ∉ st2.visited)
    (hnder : Er.Nodup) (hsubr : ∀ i ∈ Er, i ∈ Nr)
    (hmsgr : st'.messages = (st2.messages ++ (emitOf mp n).toList) ++ Er.filterMap (emitOf mp)) :
    ∃ newIds emitIds : List String,
      st'.visited = newIds ++ st.visited ∧ newIds.Nodup ∧
      (∀ i ∈ newIds, i ∉ st.visited) ∧ emitIds.Nodup ∧
      (∀ i ∈ emitIds, i ∈ newIds) ∧
      st'.messages = st.messages ++ emitIds.filterMap (emitOf mp) := by
  have hnNc : n ∉ Nc := fun hn => hfreshc n hn (List.mem_cons_self _ _)
  have hNc_mem : ∀ i ∈ Nc, i ∈ st2.visited := by
    intro i hi
    rw [hvc]
    exact List.mem_append_left _ hi
  have hn_mem : n ∈ st2.visited := by
    rw [hvc]
    exact List.mem_append_right _ (List.mem_cons_self _ _)
  refine ⟨Nr ++ (Nc ++ [n]), (Ec ++ [n]) ++ Er, ?_, ?_, ?_, ?_, ?_, ?_⟩
  · rw [hvr, hvc]
    simp [List.append_assoc]
  · rw [List.nodup_append]
    refine ⟨hndr, ?_, ?_⟩
    · rw [List.nodup_append]
      refine ⟨hndc, List.nodup_singleton n, ?_⟩
      rw [List.disjoint_left]
      intro a ha ha'
      rw [List.mem_singleton] at ha'
      subst ha'
      exact hnNc ha
    · rw [List.disjoint_left]
      intro a ha ha'
      rcases List.mem_append.mp ha' with h1 | h1
      · exact hfreshr a ha (hNc_mem a h1)
      · rw [List.mem_singleton] at h1
        subst h1
        exact hfreshr a ha hn_mem
  · intro i hi
    rcases List.mem_append.mp hi with h1 | h1
    · intro hmem
      exact hfreshr i h1 (by
        rw [hvc]
        exact List.mem_append_right _ (List.mem_cons_of_mem _ hmem))
    · rcases List.mem_append.mp h1 with h2 | h2
      · intro hmem
        exact hfreshc i h2 (List.mem_cons_of_mem _ hmem)
      · rw [List.mem_singleton] at h2
        subst h2
        exact hnv
  · rw [List.nodup_append]
    refine ⟨?_, hnder, ?_⟩
    · rw [List.nodup_append]
      refine ⟨hndec, List.nodup_singleton n, ?_⟩
      rw [List.disjoint_left]
      intro a ha ha'
      rw [List.mem_singleton] at ha'
      subst ha'
      exact hnNc (hsubc a ha)
    · rw [List.disjoint_left]
      intro a ha ha'
      have haNr : a ∈ Nr := hsubr a ha'
      rcases List.mem_append.mp ha with h1 | h1
      · exact hfreshr a haNr (hNc_mem a (hsubc a h1))
      · rw [List.mem_singleton] at h1
        subst h1
        exact hfreshr a haNr hn_mem
  · intro i hi
    rcases List.mem_append.mp hi with h1 | h1
    · rcases List.mem_append.mp h1 with h2 | h2
      · exact List.mem_append_right _ (List.mem_append_left _ (hsubc i h2))
      · exact List.mem_append_right _ (List.mem_append_right _ h2)
    · exact List.mem_append_left _ (hsubr i h1)
  · rw [hmsgr, hmsgc]
    rw [List.filterMap_append, List.filterMap_append, ← filterMap_singleton (emitOf mp) n]
    simp [List.append_assoc]

theorem visitList_extends (mp : List (String × ChatGPTNode)) :
    ∀ (fuel : Nat) (st : ExtractState) (l : List String) (st' : ExtractState),
      visitList mp fuel st l = some st' →
      ∃ newIds emitIds : List String,
        st'.visited = newIds ++ st.visited ∧ newIds.Nodup ∧
        (∀ i ∈ newIds, i ∉ st.visited) ∧ emitIds.Nodup ∧
        (∀ i ∈ emitIds, i ∈ newIds) ∧
        st'.messages = st.messages ++ emitIds.filterMap (emitOf mp)
  | fuel, st, [], st', h => by
    simp only [visitList, Option.some.injEq] at h
    subst h
    exact ⟨[], [], by simp, List.nodup_nil, by simp, List.nodup_nil, by simp, by simp⟩
  | 0, st, n :: rest, st', h => by simp [visitList] at h
  | fuel + 1, st, n :: rest, st', h => by
    simp only [visitList] at h
    split at h
    · exact visitList_extends mp fuel st rest st' h
    · next hskip =>
      have hnv : n ∉ st.visited := fun hmem => hskip (Or.inr hmem)
      split at h
      · next hlook =>
        obtain ⟨N, E, hv, hnd, hfresh, hnde, hsub, hmsg⟩ :=
          visitList_extends mp fuel _ rest st' h
        have hnN : n ∉ N := fun hn =>
          hfresh n hn (List.mem_cons_self _ _)
        refine ⟨N ++ [n], E, ?_, ?_, ?_, hnde, ?_, hmsg⟩
        · rw [hv]
          simp [List.append_assoc]
        · rw [List.nodup_append]
          refine ⟨hnd, List.nodup_singleton n, ?_⟩
          rw [List.disjoint_left]
          intro a ha ha'
          rw [List.mem_singleton] at ha'
          subst ha'
          exact hnN ha
        · intro i hi
          rcases List.mem_append.mp hi with h1 | h1
          · intro hmem
            exact hfresh i h1 (List.mem_cons_of_mem _ hmem)
          · rw [List.mem_singleton] at h1
            subst h1
            exact hnv
        · intro i hi
          exact List.mem_append_left _ (hsub i hi)
      · next node hlook =>
        split at h
        · exact absurd h (by simp)
        · next st2 hchild =>
          obtain ⟨Nc, Ec, hvc, hndc, hfreshc, hndec, hsubc, hmsgc⟩ :=
            visitList_extends mp fuel _ node.children st2 hchild
          split at h
          · next hmsgnone =>
            obtain ⟨Nr, Er, hvr, hndr, hfreshr, hnder, hsubr, hmsgr⟩ :=
              visitList_extends mp fuel st2 rest st' h
            refine extends_step mp st st2 st' n node hnv hlook Nc Ec Nr Er
              hvc hndc hfreshc hndec hsubc hmsgc hvr hndr hfreshr hnder hsubr ?_
            have hemit : emitOf mp n = none := by
              simp [emitOf, hlook, hmsgnone]
            rw [hemit, Option.toList_none, List.append_nil]
            exact hmsgr
          · next msg hmsgsome =>
            obtain ⟨Nr, Er, hvr, hndr, hfreshr, hnder, hsubr, hmsgr⟩ :=
              visitList_extends mp fuel (emitMessage st2 msg) rest st' h
            refine extends_step mp st st2 st' n node hnv hlook Nc Ec Nr Er
              hvc hndc hfreshc hndec hsubc hmsgc hvr hndr hfreshr hnder hsubr ?_
            have hemit : emitOf mp n = some (mkMessage msg) := by
              simp [emitOf, hlook, hmsgsome]
            rw [hemit, Option.toList_some]
            exact hmsgr

/-- The set of messages accumulated so far is indexed by a duplicate-free
list of already-visited node ids, each contributing its node's message at
most once. -/
def TraceInv (mp : List (String × ChatGPTNode)) (st : ExtractState) : Prop :=
  ∃ ids : List String, ids.Nodup ∧ (∀ i ∈ ids, i ∈ st.visited) ∧
    st.messages = ids.filterMap (emitOf mp)

theorem traceInv_initial (mp : List (String × ChatGPTNode)) : TraceInv mp initialState :=
  ⟨[], List.nodup_nil, by simp, rfl⟩

theorem traceInv_step (mp : List (String × ChatGPTNode)) (fuel : Nat)
    (stA stB : ExtractState) (l : List String)
    (hA : TraceInv mp stA) (h : visitList mp fuel stA l = some stB) : TraceInv mp stB := by
  obtain ⟨ids, hnd, hmem, hmsg⟩ := hA
  obtain ⟨N, E, hv, hndN, hfresh, hndE, hsub, hmsgB⟩ := visitList_extends mp fuel stA l stB h
  refine ⟨ids ++ E, ?_, ?_, ?_⟩
  · rw [List.nodup_append]
    refine ⟨hnd, hndE, ?_⟩
    rw [List.disjoint_left]
    intro a ha ha'
    exact hfresh a (hsub a ha') (hmem a ha)
  · intro i hi
    rw [hv]
    rcases List.mem_append.mp hi with h1 | h1
    · exact List.mem_append_right _ (hmem i h1)
    · exact List.mem_append_left _ (hsub i h1)
  · rw [hmsgB, hmsg, List.filterMap_append]

theorem extractPhase_spec (conv : ChatGPTConversation) :
    ∃ st, extractPhase conv = some st ∧ TraceInv conv.mapping st := by
  have hlen : (rootIDs conv).length ≤ conv.mapping.length := by
    unfold rootIDs
    rw [List.length_map]
    exact List.length_filter_le _ _
  have h1 : (visitList conv.mapping (extractFuel conv) initialState
      (rootIDs conv)).isSome = true := by
    apply visitList_isSome
    show (rootIDs conv).length + pending conv.mapping [] ≤ extractFuel conv
    unfold extractFuel
    omega
  obtain ⟨st0, heq0⟩ := Option.isSome_iff_exists.mp h1
  have hInv0 : TraceInv conv.mapping st0 :=
    traceInv_step _ _ _ _ _ (traceInv_initial _) heq0
  have hpend0 : pending conv.mapping st0.visited ≤ pending conv.mapping [] :=
    pending_mono _ [] st0.visited (by simp)
  have hbound2 : ∀ k : String,
      ([k].length + pending conv.mapping st0.visited ≤ extractFuel conv) := by
    intro k
    unfold extractFuel
    simp only [List.length_singleton]
    omega
  simp only [extractPhase, heq0]
  split
  · split
    · obtain ⟨st1, heq1⟩ := Option.isSome_iff_exists.mp
        (visitList_isSome conv.mapping (extractFuel conv) st0 [conv.currentNode]
          (hbound2 conv.currentNode))
      exact ⟨st1, by rw [heq1], traceInv_step _ _ _ _ _ hInv0 heq1⟩
    · split
      · next kn hfind =>
        obtain ⟨st1, heq1⟩ := Option.isSome_iff_exists.mp
          (visitList_isSome conv.mapping (extractFuel conv) st0 [kn.1]
            (hbound2 kn.1))
        exact ⟨st1, by rw [heq1], traceInv_step _ _ _ _ _ hInv0 heq1⟩
      · exact ⟨st0, rfl, hInv0⟩
  · exact ⟨st0, rfl, hInv0⟩

theorem messageText_ne_empty (parts : List String) : messageText parts ≠ "" := by
  simp only [messageText]
  split
  · intro hcontr
    exact absurd hcontr (by decide)
  · next h => exact h

theorem emitOf_content_ne (mp : List (String × ChatGPTNode)) (i : String) (m : Message)
    (h : emitOf mp i = some m) : m.content ≠ "" := by
  simp only [emitOf] at h
  cases hlook : alookup mp i with
  | none => rw [hlook] at h; simp at h
  | some node =>
    rw [hlook] at h
    have h' : Option.map mkMessage node.message = some m := h
    cases hmsg : node.message with
    | none => rw [hmsg] at h'; simp at h'
    | some msg =>
      rw [hmsg] at h'
      have hm : mkMessage msg = m := by simpa using h'
      rw [← hm]
      exact messageText_ne_empty msg.content.parts

theorem convert_messages_eq (conv : ChatGPTConversation) :
    (ConvertChatGPTToStandard conv).messages
      = sortMessages ((extractPhase conv).getD initialState).messages := rfl

/-- Helper conversation-example constructors shared by the concrete
test conversations below. -/
def msgOf (i : String) (t : Int) : ChatGPTMessage :=
  { id := i, author := { role := "user", name := "" }, createTime := t, updateTime := t,
    content := { contentType := "text", parts := ["m" ++ i] }, status := "", metadata := [] }

def nodeOf (i parent : String) (children : List String) (m : Option ChatGPTMessage) :
    ChatGPTNode :=
  { id := i, message := m, parent := parent, children := children }

/-- A conversation whose traversal-encounter order is a(t=2), b(t=2),
c(t=1): root R has children A, B, C in that order, each carrying one
message. -/
def exC2 : ChatGPTConversation :=
  { id := "conv2", title := "t", createTime := 0, updateTime := 0,
    mapping := [("R", nodeOf "R" "" ["A", "B", "C"] none),
                ("A", nodeOf "A" "R" [] (some (msgOf "a" 2))),
                ("B", nodeOf "B" "R" [] (some (msgOf "b" 2))),
                ("C", nodeOf "C" "R" [] (some (msgOf "c" 1)))],
    currentNode := "", conversationId := "conv2" }

/-- The spec's C3 example: root A with one child B whose message content
is empty. -/
def exC3 : ChatGPTConversation :=
  { id := "conv3", title := "t", createTime := 0, updateTime := 0,
    mapping := [("A", nodeOf "A" "" ["B"] none),
                ("B", nodeOf "B" "A" []
                  (some { id := "mB", author := { role := "user", name := "" },
                          createTime := 5, updateTime := 5,
                          content := { contentType := "text", parts := [""] },
                          status := "", metadata := [] }))],
    currentNode := "", conversationId := "conv3" }

/-- C2: the linearizer output is sorted by timestamp ascending; however
equal-timestamp messages do not retain traversal-encounter order — the
quadratic exchange sort is not stable.  At `exC2` the encounter order is
a, b, c with timestamps 2, 2, 1, but the sorted output is c, b, a: the
equal-timestamp pair a, b has been swapped (a stable sort would give
c, a, b). -/
theorem c2_counterexample :
    ((extractPhase exC2).getD initialState).messages.map (fun m => (m.id, m.timestamp))
        = [("a", 2), ("b", 2), ("c", 1)] ∧
    (ConvertChatGPTToStandard exC2).messages.map (fun m => (m.id, m.timestamp))
        = [("c", 1), ("b", 2), ("a", 2)] ∧
    (ConvertChatGPTToStandard exC2).messages.map (fun m => m.id) ≠ ["c", "a", "b"] :=
  ⟨by decide, by decide, by decide⟩

/-- C2 (amended): for every node mapping the message sequence returned by
`ConvertChatGPTToStandard` is sorted by timestamp ascending
(non-decreasing); equal-timestamp messages need not retain their
traversal-encounter order. -/
theorem c2_linearized_sorted (conv : ChatGPTConversation) :
    List.Sorted (fun a b : Message => a.timestamp ≤ b.timestamp)
      (ConvertChatGPTToStandard conv).messages :=
  exchSort_sorted (fun m : Message => m.timestamp) _

/-- C4: for every node mapping — cyclic ones and shared descendants
included — the traversal of `extractPhase` terminates (the fuel bound is
never hit) and the pre-sort message sequence contains each node's message
at most once: it is indexed by a duplicate-free list of node ids. -/
theorem c4_traversal_terminates_once (conv : ChatGPTConversation) :
    (extractPhase conv).isSome = true ∧
    ∃ ids : List String, ids.Nodup ∧
      ((extractPhase conv).getD initialState).messages
        = ids.filterMap (emitOf conv.mapping) := by
  obtain ⟨st, heq, ids, hnd, hmem, hmsg⟩ := extractPhase_spec conv
  refine ⟨by rw [heq]; rfl, ids, hnd, ?_⟩
  rw [heq]
  exact hmsg

/-- C3: a visited node carrying a message whose parts join and trim to
the empty string is emitted with the sentinel content "[Empty message]",
never omitted: (1) the emitted content for empty joined parts is exactly
the sentinel, (2) no message in any linearizer output has empty content,
(3) on the spec's example mapping (root A, child B with empty content)
the output is exactly one message with the sentinel content. -/
theorem c3_empty_content_sentinel :
    (∀ msg : ChatGPTMessage, joinedParts msg.content.parts = "" →
       (mkMessage msg).content = "[Empty message]") ∧
    (∀ (conv : ChatGPTConversation) (m : Message),
       m ∈ (ConvertChatGPTToStandard conv).messages → m.content ≠ "") ∧
    (ConvertChatGPTToStandard exC3).messages.map (fun m => m.content)
      = ["[Empty message]"] := by
  refine ⟨?_, ?_, by decide⟩
  · intro msg h
    simp [mkMessage, messageText, h]
  · intro conv m hm
    obtain ⟨st, heq, ids, hnd, hmemv, hmsg⟩ := extractPhase_spec conv
    rw [convert_messages_eq, heq] at hm
    have hm' : m ∈ st.messages :=
      (exchSort_perm (fun x : Message => x.timestamp) st.messages).mem_iff.mp hm
    rw [hmsg] at hm'
    obtain ⟨i, hiMem, hiEq⟩ := List.mem_filterMap.mp hm'
    exact emitOf_content_ne conv.mapping i m hiEq

/-- C3 witness: the sentinel substitution evaluated at the concrete
example message of `exC3`. -/
theorem c3_witness :
    (mkMessage { id := "mB", author := { role := "user", name := "" },
                 createTime := 5, updateTime := 5,
                 content := { contentType := "text", parts := [""] },
                 status := "", metadata := [] }).content = "[Empty message]" :=
  c3_empty_content_sentinel.1 _ rfl

theorem rootIDs_eq_nil (conv : ChatGPTConversation)
    (h : ∀ kn ∈ conv.mapping, kn.2.parent ≠ "") : rootIDs conv = [] := by
  unfold rootIDs
  rw [List.map_eq_nil_iff, List.filter_eq_nil_iff]
  intro a ha
  simp [h a ha]

theorem findMessageNode_isSome (mp : List (String × ChatGPTNode)) (visited : List String)
    (kn : String × ChatGPTNode) (h : findMessageNode mp visited = some kn) :
    kn.2.message.isSome = true := by
  induction mp with
  | nil => simp [findMessageNode] at h
  | cons hd rest ih =>
    simp only [findMessageNode] at h
    split at h
    · next hcond => exact (Option.some.inj h) ▸ hcond.1
    · exact ih h

/-- C5: root-candidate fallback policy.  (1) An entirely empty mapping
yields an empty message sequence (a normal, non-error result).  (2) When
no node has an empty parent and the current-node pointer is non-empty,
the traversal is exactly the one started at that pointer.  (3) When no
node has an empty parent and the pointer is empty, the traversal starts
at the first mapping entry that carries a message and is unvisited. -/
theorem c5_fallbacks :
    (∀ conv : ChatGPTConversation, conv.mapping = [] →
       (ConvertChatGPTToStandard conv).messages = []) ∧
    (∀ conv : ChatGPTConversation,
       (∀ kn ∈ conv.mapping, kn.2.parent ≠ "") → conv.currentNode ≠ "" →
       extractPhase conv
         = visitList conv.mapping (extractFuel conv) initialState [conv.currentNode]) ∧
    (∀ (conv : ChatGPTConversation) (kn : String × ChatGPTNode),
       (∀ kn' ∈ conv.mapping, kn'.2.parent ≠ "") → conv.currentNode = "" →
       findMessageNode conv.mapping [] = some kn →
       kn.2.message.isSome = true ∧
       extractPhase conv
         = visitList conv.mapping (extractFuel conv) initialState [kn.1]) := by
  refine ⟨?_, ?_, ?_⟩
  · intro conv hmap
    obtain ⟨st, heq, ids, hnd, hmemv, hmsg⟩ := extractPhase_spec conv
    rw [convert_messages_eq, heq]
    show sortMessages st.messages = []
    have hnone : st.messages = [] := by
      rw [hmsg, hmap]
      rw [List.filterMap_eq_nil_iff]
      intro i hi
      rfl
    rw [hnone]
    rfl
  · intro conv hpar hcn
    have hroots := rootIDs_eq_nil conv hpar
    have h0 : visitList conv.mapping (extractFuel conv) initialState ([] : List String)
        = some initialState := by simp [visitList]
    simp [extractPhase, hroots, h0, hcn]
  · intro conv kn hpar hcn hfind
    have hroots := rootIDs_eq_nil conv hpar
    have h0 : visitList conv.mapping (extractFuel conv) initialState ([] : List String)
        = some initialState := by simp [visitList]
    refine ⟨findMessageNode_isSome _ _ _ hfind, ?_⟩
    have hv : findMessageNode conv.mapping initialState.visited = some kn := hfind
    simp [extractPhase, hroots, h0, hcn, hv]

/-- The empty-mapping conversation used as the C5 witness input. -/
def exC5 : ChatGPTConversation :=
  { id := "conv5", title := "t", createTime := 0, updateTime := 0,
    mapping := [], currentNode := "X", conversationId := "conv5" }

/-- C5 witness: the empty-mapping fallback evaluated at `exC5`. -/
theorem c5_witness : (ConvertChatGPTToStandard exC5).messages = [] :=
  c5_fallbacks.1 exC5 rfl

/-- A raw record with empty title and an identifier shorter than 8
characters (the `raw.ID[:8]` slice is out of range). -/
def rawShortC6 : ChatGPTConversationRaw :=
  { id := "", title := "", createTime := 0, updateTime := 0, mapping := [],
    currentNode := "", conversationId := "" }

/-- C6 counterexample: with an empty title and an identifier shorter
than 8 bytes, `convertRawConversation` does not return a record at all —
the title synthesis slices `raw.ID[:8]` out of range (a Go panic,
embedded as `none`), so the universally-stated claim fails. -/
theorem c6_counterexample : convertRawConversation rawShortC6 = none := rfl

/-- C6 (amended): for every raw conversation record whose title is empty
and whose identifier has at least 8 characters, `convertRawConversation`
returns a record (does not drop it) whose title is the non-empty
synthesized value built from the first 8 characters of the identifier. -/
theorem c6_amended_title_synthesis (raw : ChatGPTConversationRaw)
    (htitle : raw.title = "") (hlen : 8 ≤ raw.id.length) :
    ∃ conv, convertRawConversation raw = some conv ∧
      conv.title = "Conversation-" ++ raw.id.take 8 ∧
      conv.title ≠ "" ∧ conv.id = raw.id := by
  simp only [convertRawConversation, htitle, if_pos rfl, if_pos hlen]
  refine ⟨_, rfl, rfl, ?_, rfl⟩
  intro hcontr
  have hfoo := congrArg String.length hcontr
  rw [String.length_append] at hfoo
  have h13 : ("Conversation-" : String).length = 13 := rfl
  have h0 : ("" : String).length = 0 := rfl
  omega

/-- The spec's example raw record: empty title, id "abc12345-xxxx". -/
def rawGoodC6 : ChatGPTConversationRaw :=
  { id := "abc12345-xxxx", title := "", createTime := 0, updateTime := 0, mapping := [],
    currentNode := "", conversationId := "" }

/-- C6 witness: the amended claim evaluated at the spec's example
record. -/
theorem c6_witness :
    ∃ conv, convertRawConversation rawGoodC6 = some conv ∧
      conv.title = "Conversation-" ++ rawGoodC6.id.take 8 ∧
      conv.title ≠ "" ∧ conv.id = rawGoodC6.id :=
  c6_amended_title_synthesis rawGoodC6 rfl (by decide)

/-- C10: the empty-title fallback is total only under the precondition
that the identifier is at least 8 characters long: below 8 the
`raw.ID[:8]` slice is out of range and the embedding's error branch (the
Go panic) is reached instead of a record being returned; at 8 or more a
record is returned. -/
theorem c10_short_id_panics (raw : ChatGPTConversationRaw) (htitle : raw.title = "") :
    (raw.id.length < 8 → convertRawConversation raw = none) ∧
    (8 ≤ raw.id.length → (convertRawConversation raw).isSome = true) := by
  constructor
  · intro hlen
    simp [convertRawConversation, htitle, Nat.not_le.mpr hlen]
  · intro hlen
    simp [convertRawConversation, htitle, hlen]

/-- A raw record with empty title and the 3-character identifier
"abc". -/
def rawShortC10 : ChatGPTConversationRaw :=
  { id := "abc", title := "", createTime := 0, updateTime := 0, mapping := [],
    currentNode := "", conversationId := "abc" }

/-- C10 witness: the panic branch evaluated at the concrete 3-character
identifier. -/
theorem c10_witness : convertRawConversation rawShortC10 = none :=
  (c10_short_id_panics rawShortC10 rfl).1 (by decide)

theorem foldl_append_map (f : α → β) (l : List α) (acc : List β) :
    l.foldl (fun acc a => acc ++ [f a]) acc = acc ++ l.map f := by
  induction l generalizing acc with
  | nil => simp
  | cons a as ih => simp [ih, List.append_assoc]

/-- C7: the content normalizer is total and shape-faithful: a single
string becomes the one-element list holding it; a (decoded) list of
strings passes through unchanged; in a mixed list every element goes
through `partToText` — strings pass, object-like values contribute their
string-typed "text" field or an "[Object: ...]"-marked placeholder; and
every other scalar shape becomes the one-element list of its
deterministic rendering.  Totality (no error, no nil result) is
witnessed by `convertParts` being a total function into `List String`. -/
theorem c7_normalize_shapes :
    (∀ s, convertParts (JValue.str s) = [s]) ∧
    (∀ l : List JValue, convertParts (JValue.arr l) = l.map partToText) ∧
    (∀ ss : List String, convertParts (JValue.arr (ss.map JValue.str)) = ss) ∧
    (∀ fields : List (String × JValue),
       (∃ kv t, fields.find? (fun kv => kv.1 = "text") = some kv ∧
          kv.2 = JValue.str t ∧ partToText (JValue.obj fields) = t) ∨
       (∃ r, partToText (JValue.obj fields) = "[Object: " ++ r ++ "]")) ∧
    (convertParts JValue.null = [render JValue.null]) ∧
    (∀ b, convertParts (JValue.bool b) = [render (JValue.bool b)]) ∧
    (∀ n, convertParts (JValue.num n) = [render (JValue.num n)]) ∧
    (∀ fields, convertParts (JValue.obj fields) = [render (JValue.obj fields)]) := by
  have harr : ∀ l : List JValue, convertParts (JValue.arr l) = l.map partToText := by
    intro l
    show l.foldl (fun acc part => acc ++ [partToText part]) [] = l.map partToText
    rw [foldl_append_map]
    rfl
  refine ⟨fun s => rfl, harr, ?_, ?_, rfl, fun b => rfl, fun n => rfl, fun fields => rfl⟩
  · intro ss
    rw [harr, List.map_map]
    have : (partToText ∘ JValue.str) = fun s => s := by
      funext s
      rfl
    rw [this, List.map_id_fun']
    rfl
  · intro fields
    cases hfind : fields.find? (fun kv => kv.1 = "text") with
    | none =>
      right
      exact ⟨render (JValue.obj fields), by simp [partToText, hfind]⟩
    | some kv =>
      obtain ⟨k, v⟩ := kv
      cases v with
      | str t =>
        left
        refine ⟨(k, JValue.str t), t, rfl, rfl, ?_⟩
        simp [partToText, hfind]
      | null => exact Or.inr ⟨render (JValue.obj fields), by simp [partToText, hfind]⟩
      | bool b => exact Or.inr ⟨render (JValue.obj fields), by simp [partToText, hfind]⟩
      | num n => exact Or.inr ⟨render (JValue.obj fields), by simp [partToText, hfind]⟩
      | arr l => exact Or.inr ⟨render (JValue.obj fields), by simp [partToText, hfind]⟩
      | obj f => exact Or.inr ⟨render (JValue.obj fields), by simp [partToText, hfind]⟩

/-- C1: evaluating the timeline materialization on a fresh indexer with
an empty master listing reaches the out-of-range read of `sorted[0]`
(Go panic, embedded as `none`) instead of completing with absent min/max
fields as the spec requires. -/
theorem c1_timeline_empty_out_of_range :
    generateTimeline Indexer.new.conversations = none := rfl


theorem topicsLookup_map_other (ts : List (String × List String)) (topic id t : String)
    (h : topic ≠ t) :
    topicsLookup (ts.map (fun kv => if kv.1 = topic then (kv.1, kv.2 ++ [id]) else kv)) t
      = topicsLookup ts t := by
  induction ts with
  | nil => rfl
  | cons kv rest ih =>
    simp only [List.map_cons, topicsLookup]
    by_cases hkt : kv.1 = topic
    · rw [if_pos hkt]
      simp only [topicsLookup]
      by_cases hk : kv.1 = t
      · exact absurd (hkt ▸ hk) h
      · rw [if_neg hk, if_neg hk]
        exact ih
    · rw [if_neg hkt]
      by_cases hk : kv.1 = t
      · rw [if_pos hk, if_pos hk]
      · rw [if_neg hk, if_neg hk]
        exact ih

theorem topicsLookup_append_other (ts : List (String × List String)) (topic id t : String)
    (h : topic ≠ t) :
    topicsLookup (ts ++ [(topic, [id])]) t = topicsLookup ts t := by
  induction ts with
  | nil =>
    simp only [List.nil_append, topicsLookup]
    rw [if_neg h]
  | cons kv rest ih =>
    simp only [List.cons_append, topicsLookup]
    by_cases hk : kv.1 = t
    · rw [if_pos hk, if_pos hk]
    · rw [if_neg hk, if_neg hk]
      exact ih

theorem topicsLookup_addTopic_other (ts : List (String × List String))
    (topic id t : String) (h : topic ≠ t) :
    topicsLookup (addTopic ts topic id) t = topicsLookup ts t := by
  unfold addTopic
  split
  · exact topicsLookup_map_other ts topic id t h
  · exact topicsLookup_append_other ts topic id t h

theorem topicsLookup_map_self (ts : List (String × List String)) (t id : String)
    (hsome : (topicsLookup ts t).isSome = true) :
    topicsLookup (ts.map (fun kv => if kv.1 = t then (kv.1, kv.2 ++ [id]) else kv)) t
      = some ((topicsLookup ts t).getD [] ++ [id]) := by
  induction ts with
  | nil => simp [topicsLookup] at hsome
  | cons kv rest ih =>
    simp only [List.map_cons, topicsLookup]
    by_cases hk : kv.1 = t
    · rw [if_pos hk]
      simp only [topicsLookup]
      rw [if_pos hk, if_pos hk]
      rfl
    · rw [if_neg hk]
      rw [if_neg hk, if_neg hk]
      rw [topicsLookup] at hsome
      rw [if_neg hk] at hsome
      exact ih hsome

theorem topicsLookup_append_self (ts : List (String × List String)) (t id : String)
    (hnone : topicsLookup ts t = none) :
    topicsLookup (ts ++ [(t, [id])]) t = some [id] := by
  induction ts with
  | nil => simp [topicsLookup]
  | cons kv rest ih =>
    rw [topicsLookup] at hnone
    by_cases hk : kv.1 = t
    · rw [if_pos hk] at hnone
      exact absurd hnone (by simp)
    · rw [if_neg hk] at hnone
      simp only [List.cons_append, topicsLookup]
      rw [if_neg hk]
      exact ih hnone

theorem topicsLookup_addTopic_self (ts : List (String × List String)) (t id : String) :
    topicsLookup (addTopic ts t id) t = some ((topicsLookup ts t).getD [] ++ [id]) := by
  unfold addTopic
  split
  · next hsome => exact topicsLookup_map_self ts t id hsome
  · next hnone =>
    have hn : topicsLookup ts t = none := by
      cases hcase : topicsLookup ts t with
      | none => rfl
      | some v => rw [hcase] at hnone; simp at hnone
    rw [topicsLookup_append_self ts t id hn, hn]
    rfl

theorem foldTopics_not_mem (id t : String) :
    ∀ (topics : List String) (ts : List (String × List String)), t ∉ topics →
      topicsLookup (topics.foldl (fun acc tp => addTopic acc tp id) ts) t
        = topicsLookup ts t
  | [], ts, _ => rfl
  | tp :: rest, ts, h => by
    rw [List.foldl_cons]
    rw [foldTopics_not_mem id t rest (addTopic ts tp id)
      (fun hmem => h (List.mem_cons_of_mem _ hmem))]
    exact topicsLookup_addTopic_other ts tp id t
      (fun he => h (by rw [← he]; exact List.mem_cons_self _ _))

theorem foldTopics_mem (id t : String) :
    ∀ (topics : List String) (ts : List (String × List String)),
      topics.Nodup → t ∈ topics →
      topicsLookup (topics.foldl (fun acc tp => addTopic acc tp id) ts) t
        = some ((topicsLookup ts t).getD [] ++ [id])
  | [], ts, _, hmem => by simp at hmem
  | tp :: rest, ts, hnd, hmem => by
    rw [List.foldl_cons]
    by_cases he : tp = t
    · subst he
      rw [foldTopics_not_mem id tp rest (addTopic ts tp id) (List.nodup_cons.mp hnd).1]
      exact topicsLookup_addTopic_self ts tp id
    · have hmem' : t ∈ rest := by
        rcases List.mem_cons.mp hmem with h1 | h1
        · exact absurd h1.symm he
        · exact h1
      rw [foldTopics_mem id t rest (addTopic ts tp id) (List.nodup_cons.mp hnd).2 hmem']
      rw [topicsLookup_addTopic_other ts tp id t he]

/-- Metadata of the spec's first example conversation: tagged
["python"]. -/
def mdC9a : ConversationMetadata :=
  { id := "id1", title := "python tips", platform := "chatgpt", project := "",
    createdDate := 0, lastModified := 0, messageCount := 0, participants := [],
    topics := ["python"], hasCode := false, hasMedia := false, filePath := "" }

/-- Metadata of the spec's second example conversation: tagged
["python", "web"]. -/
def mdC9b : ConversationMetadata :=
  { id := "id2", title := "python web", platform := "chatgpt", project := "",
    createdDate := 0, lastModified := 0, messageCount := 0, participants := [],
    topics := ["python", "web"], hasCode := false, hasMedia := false, filePath := "" }

/-- C9: `AddConversation` appends the conversation id to the bucket of
every (distinct) topic tag it carries and to no other bucket; and on the
spec's example — one conversation tagged ["python"], one tagged
["python", "web"] — the materialized topic map sends "python" to both
ids and "web" to the second only. -/
theorem c9_topic_buckets :
    (∀ (idx : Indexer) (md : ConversationMetadata) (t : String), t ∉ md.topics →
       topicsLookup (idx.addConversation md).topics t = topicsLookup idx.topics t) ∧
    (∀ (idx : Indexer) (md : ConversationMetadata) (t : String),
       md.topics.Nodup → t ∈ md.topics →
       topicsLookup (idx.addConversation md).topics t
         = some ((topicsLookup idx.topics t).getD [] ++ [md.id])) ∧
    generateTopicIndex ((Indexer.new.addConversation mdC9a).addConversation mdC9b)
      = [("python", ["id1", "id2"]), ("web", ["id2"])] := by
  refine ⟨?_, ?_, by decide⟩
  · intro idx md t hnot
    exact foldTopics_not_mem md.id t md.topics idx.topics hnot
  · intro idx md t hnd hmem
    exact foldTopics_mem md.id t md.topics idx.topics hnd hmem

/-- C9 witness: the two bucket laws evaluated at the concrete example
state: adding `mdC9a` (tagged ["python"]) leaves the "web" bucket alone
and appends "id1" to the "python" bucket of the fresh indexer. -/
theorem c9_witness :
    topicsLookup (Indexer.new.addConversation mdC9a).topics "web"
        = topicsLookup Indexer.new.topics "web" ∧
    topicsLookup (Indexer.new.addConversation mdC9a).topics "python"
        = some ((topicsLookup Indexer.new.topics "python").getD [] ++ ["id1"]) :=
  ⟨c9_topic_buckets.1 Indexer.new mdC9a "web" (by decide),
   c9_topic_buckets.2.1 Indexer.new mdC9a "python" (by decide) (by decide)⟩

theorem convertRawConversation_isSome (raw : ChatGPTConversationRaw)
    (h : raw.title = "" → 8 ≤ raw.id.length) :
    (convertRawConversation raw).isSome = true := by
  by_cases ht : raw.title = ""
  · simp [convertRawConversation, ht, h ht]
  · simp [convertRawConversation, ht]

theorem workerStep_isSome (callback : ChatGPTConversation → Option String)
    (raw : ChatGPTConversationRaw) (h : raw.title = "" → 8 ≤ raw.id.length) :
    (workerStep callback raw).isSome = true := by
  unfold workerStep
  obtain ⟨conv, hconv⟩ :=
    Option.isSome_iff_exists.mp (convertRawConversation_isSome raw h)
  rw [hconv]
  show (match callback conv with
        | some e => some (some ("callback failed for conversation " ++ conv.id ++ ": " ++ e))
        | none => some none).isSome = true
  cases hcb : callback conv with
  | none => rfl
  | some e => rfl

theorem runJobs_total (callback : ChatGPTConversation → Option String) :
    ∀ conversations : List ChatGPTConversationRaw,
      (∀ raw ∈ conversations, raw.title = "" → 8 ≤ raw.id.length) →
      runJobs callback conversations
        = some (conversations.map (fun raw => (workerStep callback raw).getD none))
  | [], _ => rfl
  | raw :: rest, hsafe => by
    obtain ⟨r, hr⟩ := Option.isSome_iff_exists.mp
      (workerStep_isSome callback raw (hsafe raw (List.mem_cons_self _ _)))
    rw [runJobs, hr,
      runJobs_total callback rest (fun raw' hmem => hsafe raw' (List.mem_cons_of_mem _ hmem))]
    simp [hr]

/-- C8 (amended): for every batch in which no record triggers the
empty-title short-identifier panic (C10), the worker pool attempts every
record exactly once, records one per-record outcome per job — a callback
failure is captured in that record's own result and never stops the
remaining records — and the batch entry point returns success (Go's
`return nil`) regardless of how many per-record errors were recorded. -/
theorem c8_amended_isolation (conversations : List ChatGPTConversationRaw)
    (callback : ChatGPTConversation → Option String)
    (hsafe : ∀ raw ∈ conversations, raw.title = "" → 8 ≤ raw.id.length) :
    runJobs callback conversations
        = some (conversations.map (fun raw => (workerStep callback raw).getD none)) ∧
    (conversations.map (fun raw => (workerStep callback raw).getD none)).length
        = conversations.length ∧
    processConversationsParallel conversations callback
        = some ((conversations.map (fun raw => (workerStep callback raw).getD none)).countP
                  (fun r => r.isNone),
                (conversations.map (fun raw => (workerStep callback raw).getD none)).countP
                  (fun r => r.isSome)) := by
  have hrun := runJobs_total callback conversations hsafe
  refine ⟨hrun, List.length_map _ _, ?_⟩
  unfold processConversationsParallel
  split
  · next hlen =>
    have hnil : conversations = [] := List.length_eq_zero.mp hlen
    subst hnil
    rfl
  · rw [hrun]

/-- A raw record that makes the conversion panic: empty title, single
character identifier. -/
def rawPanicC8 : ChatGPTConversationRaw :=
  { id := "x", title := "", createTime := 0, updateTime := 0, mapping := [],
    currentNode := "", conversationId := "x" }

/-- A well-formed raw record. -/
def rawOkC8 : ChatGPTConversationRaw :=
  { id := "y", title := "Trip planning", createTime := 0, updateTime := 0, mapping := [],
    currentNode := "", conversationId := "y" }

/-- C8 counterexample: a batch holding the panicking record and a healthy
record does not return success and never processes the healthy record —
the conversion panic crashes the whole batch (`none`), refuting the claim
as universally stated. -/
theorem c8_counterexample :
    processConversationsParallel [rawPanicC8, rawOkC8] (fun _ => none) = none := rfl

/-- Callback used by the C8 witness: fails on conversation "y" only. -/
def cbC8 : ChatGPTConversation → Option String :=
  fun conv => if conv.id = "y" then some "disk full" else none

/-- C8 witness: the amended isolation law evaluated on a concrete
two-record batch whose first record's callback fails. -/
theorem c8_witness :
    runJobs cbC8 [rawOkC8, rawGoodC6]
        = some ([rawOkC8, rawGoodC6].map (fun raw => (workerStep cbC8 raw).getD none)) ∧
    ([rawOkC8, rawGoodC6].map (fun raw => (workerStep cbC8 raw).getD none)).length
        = [rawOkC8, rawGoodC6].length ∧
    processConversationsParallel [rawOkC8, rawGoodC6] cbC8
        = some (([rawOkC8, rawGoodC6].map (fun raw => (workerStep cbC8 raw).getD none)).countP
                  (fun r => r.isNone),
                ([rawOkC8, rawGoodC6].map (fun raw => (workerStep cbC8 raw).getD none)).countP
                  (fun r => r.isSome)) :=
  c8_amended_isolation [rawOkC8, rawGoodC6] cbC8 (by decide)
